import Mathlib

/-!
Shallow embedding of the Starlark value runtime of this repository
(`src/values/list.rs`), centred on the `List` variant: freezing,
mutation, slicing, comparison, hashing and the arithmetic operators.

The `List` variant's methods are translated directly from
`src/values/list.rs`.  Helpers that live outside the provided sources
(`Value::convert_index`, `Value::convert_slice_indices`,
`default_compare`, the `Tuple` variant, the scalar variants and the
`DefaultHasher`) are modelled from the spec; each such definition says
so in its doc comment.

Rust `&mut self` methods are rendered as functions returning the new
payload in an `Except`; a Rust panic (out-of-bounds `Vec` indexing,
`.unwrap()`) is rendered as the distinguished `ValueError.Panic` so
that "never panics" claims can be stated and proved.
-/

namespace Starlark

/-- Error taxonomy of the value runtime (spec section 7).
`Panic` is not a Rust error value: it models a Rust panic
(out-of-bounds slice indexing or a failed `unwrap`). -/
inductive ValueError where
  | IncorrectParameterType
  | CannotMutateImmutableValue
  | IndexOutOfBound (index : Int)
  | NotHashableValue
  | OperationNotSupported (op : String)
  | Panic (msg : String)
deriving DecidableEq

/-- The runtime value tree.  `list` carries the payload of the Rust
`List { frozen: bool, content: Vec<Value> }`; the remaining variants
model the sibling payloads the spec names (scalars, tuples, functions).
Shared ownership of payloads is flattened into a tree: each holder sees
the payload's state at the time it was reached. -/
inductive Value where
  | none
  | bool (b : Bool)
  | int (i : Int)
  | str (s : String)
  | func (s : String)
  | list (frozen : Bool) (content : List Value)
  | tuple (content : List Value)

/-- Type name of a payload, as returned by `get_type`.  The `"list"`
case is from `src/values/list.rs`; the other names are the ones the
repository's siblings use (modelled from the spec). -/
def Value.get_type : Value → String
  | .none => "NoneType"
  | .bool _ => "boolean"
  | .int _ => "int"
  | .str _ => "string"
  | .func _ => "function"
  | .list _ _ => "list"
  | .tuple _ => "tuple"

/-- Modelled from the spec: integer conversion accepts an integer or a
boolean (a boolean coerces to 0/1, spec section 4.3 `mul`); any other
kind declines with `IncorrectParameterType`. -/
def Value.to_int : Value → Except ValueError Int
  | .int i => .ok i
  | .bool b => .ok (if b then 1 else 0)
  | _ => .error .IncorrectParameterType

/-- Truthiness.  The list case is `src/values/list.rs` lines 97-99:
`!self.content.is_empty()`; the other variants are modelled from the
spec and play no part in the claims. -/
def Value.to_bool : Value → Bool
  | .none => false
  | .bool b => b
  | .int i => i ≠ 0
  | .str s => s ≠ ""
  | .func _ => true
  | .list _ content => !content.isEmpty
  | .tuple content => !content.isEmpty

/-- Immutability flag.  The list case is `src/values/list.rs` lines
52-54 (`self.frozen`); the tuple case is modelled from the spec: a
Tuple is an "immutable fixed-size sequence"; scalars are immutable. -/
def Value.immutable : Value → Bool
  | .list frozen _ => frozen
  | _ => true

/-- Iteration (`into_iter`).  The list case is `src/values/list.rs`
lines 175-177 (always succeeds, yielding the elements in order); the
tuple case is modelled from the spec; other kinds decline. -/
def Value.into_iter : Value → Except ValueError (List Value)
  | .list _ content => .ok content
  | .tuple content => .ok content
  | v => .error (.OperationNotSupported (v.get_type))

/-- Modelled from the spec: `Value::convert_index` is not among the
provided sources.  Spec section 4.3 `at`: an index supports negative
values counting from the end, is resolved against the current length,
and is an error when out of range after resolution ("not silent
clamping").  Only integers and booleans convert (section 4.2). -/
def Value.convert_index (index : Value) (len : Int) : Except ValueError Int :=
  match index with
  | .int _ | .bool _ =>
    match index.to_int with
    | .error e => .error e
    | .ok x =>
      let i := if x < 0 then len + x else x
      if 0 ≤ i ∧ i < len then .ok i else .error (.IndexOutOfBound i)
  | _ => .error .IncorrectParameterType

/-- Indexing: `src/values/list.rs` lines 130-133.  The Rust body is
`Ok(self.content[i].clone())`; the `Vec` indexing panic is modelled by
the `Panic` error on the unreachable out-of-bounds branch. -/
def Value.atIndex (self index : Value) : Except ValueError Value :=
  match self with
  | .list _ content =>
    match Value.convert_index index (content.length : Int) with
    | .error e => .error e
    | .ok i =>
      if h : i.toNat < content.length then .ok content[i.toNat]
      else .error (.Panic "index out of bounds")
  | v => .error (.OperationNotSupported (v.get_type))

/-- In-place element update: `src/values/list.rs` lines 256-264.  The
frozen check comes first; only then is the index resolved; the Rust
`self.content[i] = new_value` panic is modelled by `Panic` on the
unreachable branch.  The tuple case is modelled from the spec (section
4.1: every mutating method other than `freeze` checks `immutable()`
and fails with `CannotMutateImmutableValue`). -/
def Value.set_at (self index new_value : Value) : Except ValueError Value :=
  match self with
  | .list frozen content =>
    if frozen then .error .CannotMutateImmutableValue
    else
      match Value.convert_index index (content.length : Int) with
      | .error e => .error e
      | .ok i =>
        if i.toNat < content.length then
          .ok (.list false (content.set i.toNat new_value))
        else .error (.Panic "index out of bounds")
  | .tuple _ => .error .CannotMutateImmutableValue
  | v => .error (.OperationNotSupported (v.get_type))

/-- Concatenation: `src/values/list.rs` lines 194-210.  Defined only
when `other.get_type() == "list"`; the result is a fresh payload with
`frozen: false` holding this list's elements followed by `other`'s. -/
def Value.add (self other : Value) : Except ValueError Value :=
  match self with
  | .list _ content =>
    if other.get_type = "list" then
      match other.into_iter with
      | .error e => .error e
      | .ok c2 => .ok (.list false (content ++ c2))
    else .error .IncorrectParameterType
  | v => .error (.OperationNotSupported (v.get_type))

/-- Repetition: `src/values/list.rs` lines 227-243.  Defined when
`other` is an int or boolean; the loop `for _i in 0..l` pushes the
content once per iteration, so a non-positive count runs zero times. -/
def Value.mul (self other : Value) : Except ValueError Value :=
  match self with
  | .list _ content =>
    if other.get_type = "int" ∨ other.get_type = "boolean" then
      match other.to_int with
      | .error e => .error e
      | .ok l => .ok (.list false (List.flatten (List.replicate l.toNat content)))
    else .error .IncorrectParameterType
  | v => .error (.OperationNotSupported (v.get_type))

/-- Rust's `as usize` cast on an `i64`: a wrapping conversion to the
64-bit unsigned range.  A negative count therefore becomes a number
close to `2^64`. -/
def usizeCast (i : Int) : Nat := (i % (2 : Int) ^ 64).toNat

/-- Core of `List::slice`, `src/values/list.rs` lines 153-171, applied
to already-resolved `start`/`stop`/`stride`: the Rust tuple-let
`(low, take, astride)` followed by `skip(low as usize)`,
`take(take as usize)`, the `enumerate`/`filter_map` stride filter, and
the final reversal when `stride < 0`, written out per branch. -/
def sliceCore (content : List Value) (start stop stride : Int) : List Value :=
  if stride < 0 then
    (((content.drop (usizeCast (stop + 1))).take (usizeCast (start - stop))).enum.filterMap
      (fun x => if ((x.1 : Int) % (-stride)) = 0 then some x.2 else Option.none)).reverse
  else
    ((content.drop (usizeCast start)).take (usizeCast (stop - start))).enum.filterMap
      (fun x => if ((x.1 : Int) % stride) = 0 then some x.2 else Option.none)

/-- Modelled from the spec: the single-bound helper of
`Value::convert_slice_indices`, which is not among the provided
sources.  A missing or `None` bound takes its default; an int/boolean
bound is resolved with the negative-index rule and clamped to the
window `[mn, mx]` (slice bounds clamp rather than error, which the
spec's own examples `[::-1]` and `[::-2]` require); any other kind is
`IncorrectParameterType`. -/
def convertIndexAux (len : Int) (v : Option Value) (dflt mn mx : Int) :
    Except ValueError Int :=
  match v with
  | Option.none => .ok dflt
  | some w =>
    match w with
    | .none => .ok dflt
    | _ =>
      match w.to_int with
      | .error _ => .error .IncorrectParameterType
      | .ok x =>
        let i := if x < 0 then len + x else x
        .ok (if i < mn then mn else if i > mx then mx else i)

/-- Modelled from the spec: `Value::convert_slice_indices` is not among
the provided sources.  Spec section 4.3 `slice`: every bound is
optional, with defaults `start=0 / stop=length / stride=1` "after sign
adjustment" — for a negative stride the adjusted defaults are
`start=length-1` and `stop=-1` (forced by the spec's required outputs
for `[::-1]` and `[::-2]` together with the windowing in the source);
a zero stride is rejected; bounds resolve independently against the
length with negative-index semantics. -/
def Value.convert_slice_indices (len : Int) (start stop stride : Option Value) :
    Except ValueError (Int × Int × Int) :=
  let strideVal := match stride with | Option.none => Value.int 1 | some v => v
  let strideInt : Except ValueError Int :=
    match strideVal with
    | .none => .ok 1
    | v => v.to_int
  match strideInt with
  | .error e => .error e
  | .ok st =>
    if st = 0 then .error (.IndexOutOfBound 0)
    else
      let defStart := if st < 0 then len - 1 else 0
      let defStop := if st < 0 then -1 else len
      let clampMin := if st < 0 then -1 else 0
      match convertIndexAux len start defStart clampMin (len + clampMin) with
      | .error e => .error e
      | .ok s =>
        match convertIndexAux len stop defStop clampMin (len + clampMin) with
        | .error e => .error e
        | .ok e2 => .ok (s, e2, st)

/-- Slicing: `src/values/list.rs` lines 145-173.  Resolves the bounds,
runs the windowed stride filter, and wraps the result in a fresh
`Tuple` payload. -/
def Value.slice (self : Value) (start stop stride : Option Value) :
    Except ValueError Value :=
  match self with
  | .list _ content =>
    match Value.convert_slice_indices (content.length : Int) start stop stride with
    | .error e => .error e
    | .ok (s, e2, st) => .ok (.tuple (sliceCore content s e2 st))
  | v => .error (.OperationNotSupported (v.get_type))

/-- The negative-stride slice result exactly as the claim words it:
take the forward window from `stop+1` up to `start` (empty when
`start < stop+1`), keep the elements whose offset inside that window is
a multiple of the absolute stride, then reverse. -/
def sliceSpecNeg (content : List Value) (start stop stride : Int) : List Value :=
  (((content.drop (stop + 1).toNat).take (start - stop).toNat).enum.filterMap
    (fun x => if ((x.1 : Int) % (stride.natAbs : Int)) = 0 then some x.2 else Option.none)).reverse

/-- The non-negative-stride slice result as the claim words it: the
window from `start` up to `stop`, stride-filtered, with no reversal. -/
def sliceSpecNonneg (content : List Value) (start stop stride : Int) : List Value :=
  ((content.drop start.toNat).take (stop - start).toNat).enum.filterMap
    (fun x => if ((x.1 : Int) % stride) = 0 then some x.2 else Option.none)

mutual

/-- Freezing: `src/values/list.rs` lines 55-60.  Sets the `frozen`
flag and recursively freezes every contained Value
(`x.borrow_mut().freeze()`).  The tuple case is modelled from the
spec: freezing "recursively freezes every contained Value". -/
def Value.freeze : Value → Value
  | .list _ content => .list true (freezeAll content)
  | .tuple content => .tuple (freezeAll content)
  | v => v

/-- Freeze every element of a content vector in order. -/
def freezeAll : List Value → List Value
  | [] => []
  | v :: rest => v.freeze :: freezeAll rest

end

mutual

/-- Every payload reachable from this value, this value included, has
its `frozen` flag set (scalars are immutable by nature). -/
def Value.allFrozen : Value → Bool
  | .list frozen content => frozen && listAllFrozen content
  | .tuple content => listAllFrozen content
  | _ => true

/-- Every element of a content vector is recursively frozen. -/
def listAllFrozen : List Value → Bool
  | [] => true
  | v :: rest => v.allFrozen && listAllFrozen rest

end

/-- Three-way integer comparison (the `Ord` behaviour of `i64`). -/
def cmpInt (a b : Int) : Ordering :=
  if a = b then .eq else if a < b then .lt else .gt

/-- Three-way string comparison. -/
def cmpStr (a b : String) : Ordering :=
  if a = b then .eq else if a < b then .lt else .gt

/-- Modelled from the spec: a fixed rank per kind, giving the total
kind-based tiebreak that makes all values comparable. -/
def typeRank : Value → Nat
  | .none => 0
  | .bool _ => 1
  | .int _ => 2
  | .str _ => 3
  | .func _ => 4
  | .list _ _ => 5
  | .tuple _ => 6

/-- Modelled from the spec: `default_compare` is not among the provided
sources.  Section 3: "Structural equality/ordering between two values
of different incompatible kinds falls back to a total, kind-based
tiebreak (so all values are comparable, never failing ordering due to
type mismatch)". -/
def default_compare (v1 v2 : Value) : Ordering :=
  cmpInt (typeRank v1) (typeRank v2)

mutual

/-- Structural comparison.  The list/list and list/other cases are
`List::compare`, `src/values/list.rs` lines 108-128: when the operand's
type is `"list"` both sides are iterated lexicographically, otherwise
`default_compare` decides.  Same-kind scalar cases and the tuple case
are modelled from the spec (structural comparison per kind). -/
def Value.compare : Value → Value → Ordering
  | .none, .none => .eq
  | .bool a, .bool b => cmpInt (if a then 1 else 0) (if b then 1 else 0)
  | .int a, .int b => cmpInt a b
  | .str a, .str b => cmpStr a b
  | .func a, .func b => cmpStr a b
  | .list _ c1, .list _ c2 => compareLists c1 c2
  | .tuple c1, .tuple c2 => compareLists c1 c2
  | v1, v2 => default_compare v1 v2

/-- The pairwise loop of `List::compare` (lines 112-124): both
iterators advance together; `(None, None)` is `Equal`,
`(None, Some)` is `Less`, `(Some, None)` is `Greater`, and the first
non-equal element pair decides. -/
def compareLists : List Value → List Value → Ordering
  | [], [] => .eq
  | [], _ :: _ => .lt
  | _ :: _, [] => .gt
  | v1 :: r1, v2 :: r2 =>
    match Value.compare v1 v2 with
    | .eq => compareLists r1 r2
    | r => r

end

/-- `List::compare` as literally written, panic made explicit:
lines 110-111 call `.unwrap()` on both `into_iter()` results inside
the `other.get_type() == "list"` branch; `Option.none` models that
panic. -/
def compareMethod (content : List Value) (other : Value) : Option Ordering :=
  if other.get_type = "list" then
    match other.into_iter with
    | .error _ => Option.none
    | .ok c2 => some (compareLists content c2)
  else some (default_compare (.list false content) other)

/-- One 64-bit write into the hasher: the state absorbs the written
word (words are `u64`, hence the truncation of the written value). -/
def hwrite (s w : Nat) : Nat := s * 2 ^ 64 + w % 2 ^ 64

mutual

/-- Hashing.  The list case is `List::get_hash`, `src/values/list.rs`
lines 100-106: a fresh hasher absorbs `v.get_hash()?` for every
element in order, so the first failing element aborts the whole hash.
Scalar hashes and the std `DefaultHasher` are outside the sources and
are modelled from the spec: the hasher state is an injective fold of
the written words (order-sensitive combination), scalars hash to their
canonical encoding, and a function value declines hashing (spec
section 7, unhashable-value error). -/
def Value.get_hash : Value → Except ValueError Nat
  | .none => .ok 0
  | .bool b => .ok (if b then 1 else 0)
  | .int i => .ok (i % (2 : Int) ^ 64).toNat
  | .str s => .ok (s.length % 2 ^ 64)
  | .func _ => .error .NotHashableValue
  | .list _ content => hashContents content 0
  | .tuple content => hashContents content 0

/-- The element loop of `List::get_hash`: absorb each element's hash
in order into the hasher state `s`, propagating the first failure. -/
def hashContents : List Value → Nat → Except ValueError Nat
  | [], s => .ok s
  | v :: rest, s =>
    match v.get_hash with
    | .error e => .error e
    | .ok h => hashContents rest (hwrite s h)

end

/-- Reachability through container elements: the values a payload
transitively contains (itself included). -/
inductive Reaches : Value → Value → Prop where
  | refl (v : Value) : Reaches v v
  | listElem {f : Bool} {c : List Value} {w u : Value} :
      w ∈ c → Reaches w u → Reaches (.list f c) u
  | tupleElem {c : List Value} {w u : Value} :
      w ∈ c → Reaches w u → Reaches (.tuple c) u



theorem convert_index_ok_bounds {idx : Value} {len j : Int}
    (h : Value.convert_index idx len = .ok j) : 0 ≤ j ∧ j < len := by
  cases idx with
  | int x =>
    unfold Value.convert_index Value.to_int at h
    dsimp only at h
    split_ifs at h <;> (simp_all; try omega)
  | bool b =>
    unfold Value.convert_index Value.to_int at h
    dsimp only at h
    split_ifs at h <;> (simp_all; try omega)
  | none => cases h
  | str s => cases h
  | func s => cases h
  | list f c => cases h
  | tuple c => cases h

theorem convert_index_error_shape {idx : Value} {len : Int} {e : ValueError}
    (h : Value.convert_index idx len = .error e) :
    e = .IncorrectParameterType ∨ ∃ i, e = .IndexOutOfBound i := by
  cases idx with
  | int x =>
    unfold Value.convert_index Value.to_int at h
    dsimp only at h
    split_ifs at h <;>
      first
      | (simp_all
         done)
      | exact Or.inr ⟨_, (Except.error.inj h).symm⟩
  | bool b =>
    unfold Value.convert_index Value.to_int at h
    dsimp only at h
    split_ifs at h <;>
      first
      | (simp_all
         done)
      | exact Or.inr ⟨_, (Except.error.inj h).symm⟩
  | none => exact Or.inl (Except.error.inj h).symm
  | str s => exact Or.inl (Except.error.inj h).symm
  | func s => exact Or.inl (Except.error.inj h).symm
  | list f c => exact Or.inl (Except.error.inj h).symm
  | tuple c => exact Or.inl (Except.error.inj h).symm

theorem listAllFrozen_mem : ∀ {c : List Value}, listAllFrozen c = true →
    ∀ {w : Value}, w ∈ c → w.allFrozen = true := by
  intro c h w hw
  induction c with
  | nil => cases hw
  | cons v rest ih =>
    simp only [listAllFrozen, Bool.and_eq_true] at h
    cases hw with
    | head => exact h.1
    | tail _ hm => exact ih h.2 hm

theorem reaches_allFrozen {v u : Value} (h : Reaches v u) :
    v.allFrozen = true → u.allFrozen = true := by
  induction h with
  | refl => exact fun hv => hv
  | listElem hmem _ ih =>
    intro hv
    simp only [Value.allFrozen, Bool.and_eq_true] at hv
    exact ih (listAllFrozen_mem hv.2 hmem)
  | tupleElem hmem _ ih =>
    intro hv
    simp only [Value.allFrozen] at hv
    exact ih (listAllFrozen_mem hv hmem)

mutual

theorem freeze_allFrozen : ∀ v : Value, (Value.freeze v).allFrozen = true
  | .none => rfl
  | .bool _ => rfl
  | .int _ => rfl
  | .str _ => rfl
  | .func _ => rfl
  | .list _ c => by
    simp [Value.freeze, Value.allFrozen, freezeAll_allFrozen c]
  | .tuple c => by
    simp [Value.freeze, Value.allFrozen, freezeAll_allFrozen c]

theorem freezeAll_allFrozen : ∀ c : List Value, listAllFrozen (freezeAll c) = true
  | [] => rfl
  | v :: rest => by
    simp [freezeAll, listAllFrozen, freeze_allFrozen v, freezeAll_allFrozen rest]

end

mutual

theorem allFrozen_freeze_fix : ∀ v : Value, v.allFrozen = true → Value.freeze v = v
  | .none, _ => rfl
  | .bool _, _ => rfl
  | .int _, _ => rfl
  | .str _, _ => rfl
  | .func _, _ => rfl
  | .list f c, h => by
    simp only [Value.allFrozen, Bool.and_eq_true] at h
    simp [Value.freeze, h.1, freezeAll_fix c h.2]
  | .tuple c, h => by
    simp only [Value.allFrozen] at h
    simp [Value.freeze, freezeAll_fix c h]

theorem freezeAll_fix : ∀ c : List Value, listAllFrozen c = true → freezeAll c = c
  | [], _ => rfl
  | v :: rest, h => by
    simp only [listAllFrozen, Bool.and_eq_true] at h
    simp [freezeAll, allFrozen_freeze_fix v h.1, freezeAll_fix rest h.2]

end


mutual

theorem compare_refl : ∀ v : Value, Value.compare v v = .eq
  | .none => rfl
  | .bool b => by simp [Value.compare, cmpInt]
  | .int a => by simp [Value.compare, cmpInt]
  | .str s => by simp [Value.compare, cmpStr]
  | .func s => by simp [Value.compare, cmpStr]
  | .list f c => by simp [Value.compare, compareLists_refl c]
  | .tuple c => by simp [Value.compare, compareLists_refl c]

theorem compareLists_refl : ∀ c : List Value, compareLists c c = .eq
  | [] => rfl
  | v :: rest => by
    simp [compareLists, compare_refl v, compareLists_refl rest]

end

theorem compareLists_self_append (pre suf : List Value) (h : suf ≠ []) :
    compareLists pre (pre ++ suf) = .lt := by
  induction pre with
  | nil =>
    cases suf with
    | nil => exact absurd rfl h
    | cons a t => simp [compareLists]
  | cons a t ih => simp [compareLists, compare_refl a, ih]

theorem compareLists_append_self (pre suf : List Value) (h : suf ≠ []) :
    compareLists (pre ++ suf) pre = .gt := by
  induction pre with
  | nil =>
    cases suf with
    | nil => exact absurd rfl h
    | cons a t => simp [compareLists]
  | cons a t ih => simp [compareLists, compare_refl a, ih]

theorem compareLists_first_diff (a b : Value) (s t : List Value)
    (h : Value.compare a b ≠ .eq) :
    compareLists (a :: s) (b :: t) = Value.compare a b := by
  cases hab : Value.compare a b with
  | eq => exact absurd hab h
  | lt => simp [compareLists, hab]
  | gt => simp [compareLists, hab]

theorem compareLists_first_eq (a b : Value) (s t : List Value)
    (h : Value.compare a b = .eq) :
    compareLists (a :: s) (b :: t) = compareLists s t := by
  simp only [compareLists, h]


theorem hashContents_append_error (v : Value) (e : ValueError)
    (hv : Value.get_hash v = .error e) :
    ∀ (pre post : List Value) (s : Nat),
      (∀ u ∈ pre, ∃ h, Value.get_hash u = .ok h) →
      hashContents (pre ++ v :: post) s = .error e := by
  intro pre
  induction pre with
  | nil => intro post s _; simp [hashContents, hv]
  | cons u rest ih =>
    intro post s hok
    obtain ⟨h, hu⟩ := hok u (by simp)
    simp only [List.cons_append, hashContents, hu]
    exact ih post (hwrite s h) (fun w hw => hok w (by simp [hw]))

theorem hashContents_ok_cons (v : Value) (rest : List Value) (s h : Nat)
    (hv : Value.get_hash v = .ok h) :
    hashContents (v :: rest) s = hashContents rest (hwrite s h) := by
  simp [hashContents, hv]

theorem sliceCore_neg_spec (content : List Value) (s e st : Int)
    (hst : st < 0) (h1 : -1 ≤ e) (h2 : e ≤ s) (h3 : s + 1 < 2 ^ 64) :
    sliceCore content s e st = sliceSpecNeg content s e st := by
  have hlow : usizeCast (e + 1) = (e + 1).toNat := by unfold usizeCast; omega
  have htake : usizeCast (s - e) = (s - e).toNat := by unfold usizeCast; omega
  have habs : -st = (st.natAbs : Int) := by omega
  unfold sliceCore sliceSpecNeg
  rw [if_pos hst, hlow, htake, habs]

theorem sliceCore_nonneg_spec (content : List Value) (s e st : Int)
    (hst : 0 < st) (h1 : 0 ≤ s) (h2 : s ≤ e) (h3 : e < 2 ^ 64) :
    sliceCore content s e st = sliceSpecNonneg content s e st := by
  have hlow : usizeCast s = s.toNat := by unfold usizeCast; omega
  have htake : usizeCast (e - s) = (e - s).toNat := by unfold usizeCast; omega
  unfold sliceCore sliceSpecNonneg
  rw [if_neg (by omega), hlow, htake]

/-- Claim C1: freezing a List recursively freezes every contained
value at any depth; afterwards `set_at` on the list or on any nested
list reachable from it fails with `CannotMutateImmutableValue`; and
the mutable-to-frozen transition is one-way: a fully frozen value is a
fixed point of `freeze`, and the only in-place mutator, `set_at`,
fails on a frozen payload, so no operation resets the flag. -/
theorem claim_C1 :
    (∀ v : Value, (Value.freeze v).allFrozen = true)
    ∧ (∀ (L M : Value) (f : Bool) (c : List Value),
        Reaches (Value.freeze L) M → M = .list f c →
        ∀ i nv, Value.set_at M i nv = .error .CannotMutateImmutableValue)
    ∧ (∀ v : Value, v.allFrozen = true → Value.freeze v = v) := by
  refine ⟨freeze_allFrozen, ?_, allFrozen_freeze_fix⟩
  intro L M f c hre hM i nv
  have hfr : M.allFrozen = true := reaches_allFrozen hre (freeze_allFrozen L)
  subst hM
  simp only [Value.allFrozen, Bool.and_eq_true] at hfr
  simp [Value.set_at, hfr.1]

/-- Witness for C1: a list nested inside a frozen list declines
mutation. -/
theorem claim_C1_witness :
    Value.set_at (.list true [Value.int 7]) (.int 0) (.int 8)
      = .error .CannotMutateImmutableValue := by
  have hfr : Value.freeze (.list false [.list false [.int 7]])
      = .list true [.list true [.int 7]] := rfl
  refine claim_C1.2.1 (.list false [.list false [.int 7]]) (.list true [.int 7]) true
    [Value.int 7] ?_ rfl (.int 0) (.int 8)
  rw [hfr]
  exact Reaches.listElem (by simp) (Reaches.refl _)

/-- Claim C2, amended: for already-resolved bounds with negative
stride and a forward-nonempty window (`stop ≤ start`, with `stop ≥ -1`
and `start` within the machine range, as the bound resolution
guarantees), the result is the forward window from `stop+1` up to
`start`, stride-filtered by the absolute stride, then reversed; for
positive stride and `start ≤ stop` it is the unreversed window from
`start` up to `stop`; and the spec's two examples hold.  (When
`start < stop` with negative stride the claim as stated fails: the
take count `start - stop` wraps through the unsigned cast, see the
counterexample.) -/
theorem claim_C2_amended :
    (∀ (content : List Value) (s e st : Int),
        st < 0 → -1 ≤ e → e ≤ s → s + 1 < 2 ^ 64 →
        sliceCore content s e st = sliceSpecNeg content s e st)
    ∧ (∀ (content : List Value) (s e st : Int),
        0 < st → 0 ≤ s → s ≤ e → e < 2 ^ 64 →
        sliceCore content s e st = sliceSpecNonneg content s e st)
    ∧ Value.slice (.list false [.int 0, .int 1, .int 2, .int 3, .int 4])
        Option.none Option.none (some (.int (-1)))
        = .ok (.tuple [.int 4, .int 3, .int 2, .int 1, .int 0])
    ∧ Value.slice (.list false [.int 0, .int 1, .int 2, .int 3, .int 4])
        Option.none Option.none (some (.int (-2)))
        = .ok (.tuple [.int 4, .int 2, .int 0]) :=
  ⟨sliceCore_neg_spec, sliceCore_nonneg_spec, rfl, rfl⟩

/-- Witness for the amended C2 at concrete resolved bounds. -/
theorem claim_C2_witness :
    sliceCore [Value.int 0, Value.int 1, Value.int 2, Value.int 3, Value.int 4]
        4 (-1) (-1)
      = sliceSpecNeg [Value.int 0, Value.int 1, Value.int 2, Value.int 3, Value.int 4]
        4 (-1) (-1)
    ∧ sliceCore [Value.int 0, Value.int 1] 0 2 1
      = sliceSpecNonneg [Value.int 0, Value.int 1] 0 2 1 :=
  ⟨claim_C2_amended.1 _ 4 (-1) (-1) (by norm_num) (by norm_num) (by norm_num)
      (by norm_num),
   claim_C2_amended.2.1 _ 0 2 1 (by norm_num) (by norm_num) (by norm_num)
      (by norm_num)⟩

/-- Counterexample to C2 as stated: slicing `[0,1,2,3,4]` with
`start=1`, `stop=3`, `stride=-1` makes the take count `start - stop`
negative; the `as usize` cast wraps it to nearly `2^64`, so the code
keeps the whole remaining suffix and returns `(4,)`, while the claimed
forward window from `stop+1` up to `start` is empty. -/
theorem claim_C2_counterexample :
    Value.slice (.list false [.int 0, .int 1, .int 2, .int 3, .int 4])
        (some (.int 1)) (some (.int 3)) (some (.int (-1)))
      = .ok (.tuple [.int 4])
    ∧ sliceSpecNeg [.int 0, .int 1, .int 2, .int 3, .int 4] 1 3 (-1) = []
    ∧ Value.slice (.list false [.int 0, .int 1, .int 2, .int 3, .int 4])
        (some (.int 1)) (some (.int 3)) (some (.int (-1)))
      ≠ .ok (.tuple (sliceSpecNeg [.int 0, .int 1, .int 2, .int 3, .int 4] 1 3 (-1))) := by
  refine ⟨rfl, rfl, ?_⟩
  intro h
  have e1 : Value.slice (.list false [.int 0, .int 1, .int 2, .int 3, .int 4])
      (some (.int 1)) (some (.int 3)) (some (.int (-1)))
      = .ok (.tuple [.int 4]) := rfl
  have e2 : sliceSpecNeg [.int 0, .int 1, .int 2, .int 3, .int 4] 1 3 (-1)
      = [] := rfl
  rw [e1, e2] at h
  have h2 : (Value.tuple [Value.int 4]) = Value.tuple [] := Except.ok.inj h
  simp at h2

/-- Claim C3: a successful slice always returns a Tuple payload, which
is immutable by construction (`immutable()` is true and `set_at` on it
fails with `CannotMutateImmutableValue`); in this pure embedding the
result is built from copies of the elements, so no later `set_at` on
the source list can change an already-computed slice value. -/
theorem claim_C3 :
    ∀ (f : Bool) (c : List Value) (a b s : Option Value) (r : Value),
      Value.slice (.list f c) a b s = .ok r →
      r.get_type = "tuple" ∧ r.immutable = true
        ∧ ∀ i nv, Value.set_at r i nv = .error .CannotMutateImmutableValue := by
  intro f c a b s r h
  simp only [Value.slice] at h
  cases hcv : Value.convert_slice_indices ((c.length : Int)) a b s with
  | error e => rw [hcv] at h; cases h
  | ok t =>
    obtain ⟨s1, e1, st1⟩ := t
    rw [hcv] at h
    cases h
    exact ⟨rfl, rfl, fun i nv => rfl⟩

/-- Witness for C3 at a concrete slice. -/
theorem claim_C3_witness :
    Value.get_type (.tuple [Value.int 1, Value.int 2]) = "tuple"
    ∧ Value.immutable (.tuple [Value.int 1, Value.int 2]) = true
    ∧ Value.set_at (.tuple [Value.int 1, Value.int 2]) (.int 0) (.int 9)
        = .error .CannotMutateImmutableValue := by
  have h := claim_C3 false [Value.int 1, Value.int 2] Option.none Option.none
    Option.none (.tuple [Value.int 1, Value.int 2]) rfl
  exact ⟨h.1, h.2.1, h.2.2 (.int 0) (.int 9)⟩

/-- Claim C4: `set_at` checks the frozen flag before resolving the
index (a frozen list fails with `CannotMutateImmutableValue` for every
index value, valid or not); on an unfrozen list the index is resolved
with the negative-index rule against the current length, out-of-range
resolution fails, and the update is all-or-nothing: on success exactly
the addressed element is replaced, on failure the returned error
carries no partial state. -/
theorem claim_C4 :
    (∀ (c : List Value) (i nv : Value),
        Value.set_at (.list true c) i nv = .error .CannotMutateImmutableValue)
    ∧ (∀ (c : List Value) (i nv : Value) (e : ValueError),
        Value.convert_index i (c.length : Int) = .error e →
        Value.set_at (.list false c) i nv = .error e)
    ∧ (∀ (c : List Value) (i nv : Value) (j : Int),
        Value.convert_index i (c.length : Int) = .ok j →
        Value.set_at (.list false c) i nv = .ok (.list false (c.set j.toNat nv)))
    ∧ (∀ (x len : Int), -len ≤ x → x < 0 →
        Value.convert_index (.int x) len = .ok (len + x))
    ∧ (∀ (x len : Int), 0 ≤ x → x < len →
        Value.convert_index (.int x) len = .ok x)
    ∧ (∀ (x len : Int), x < -len ∨ len ≤ x →
        ∃ i, Value.convert_index (.int x) len = .error (.IndexOutOfBound i)) := by
  refine ⟨?_, ?_, ?_, ?_, ?_, ?_⟩
  · intro c i nv
    simp [Value.set_at]
  · intro c i nv e h
    simp [Value.set_at, h]
  · intro c i nv j h
    have hb := convert_index_ok_bounds h
    have hlt : j.toNat < c.length := by omega
    simp [Value.set_at, h, hlt]
  · intro x len h1 h2
    simp only [Value.convert_index, Value.to_int]
    rw [if_pos h2, if_pos (show 0 ≤ len + x ∧ len + x < len by omega)]
  · intro x len h1 h2
    simp only [Value.convert_index, Value.to_int]
    rw [if_neg (show ¬x < 0 by omega), if_pos (show 0 ≤ x ∧ x < len by omega)]
  · intro x len h
    simp only [Value.convert_index, Value.to_int]
    by_cases hx : x < 0
    · exact ⟨len + x, by
        rw [if_pos hx, if_neg (show ¬(0 ≤ len + x ∧ len + x < len) by omega)]⟩
    · exact ⟨x, by
        rw [if_neg hx, if_neg (show ¬(0 ≤ x ∧ x < len) by omega)]⟩

/-- Witness for C4: frozen-first even with an ill-typed index;
negative-index resolution; an in-place update. -/
theorem claim_C4_witness :
    Value.set_at (.list true [Value.int 1]) (.str "x") (.int 9)
      = .error .CannotMutateImmutableValue
    ∧ Value.convert_index (.int (-1)) 3 = .ok 2
    ∧ Value.set_at (.list false [Value.int 1, Value.int 2, Value.int 3])
        (.int (-1)) (.int 9)
      = .ok (.list false [Value.int 1, Value.int 2, Value.int 9]) := by
  refine ⟨claim_C4.1 _ _ _, ?_, ?_⟩
  · simpa using claim_C4.2.2.2.1 (-1) 3 (by norm_num) (by norm_num)
  · have hc : Value.convert_index (.int (-1))
        ((([Value.int 1, Value.int 2, Value.int 3] : List Value).length : Int))
        = .ok 2 := by
      simpa using claim_C4.2.2.2.1 (-1) 3 (by norm_num) (by norm_num)
    simpa using claim_C4.2.2.1 [Value.int 1, Value.int 2, Value.int 3]
      (.int (-1)) (.int 9) 2 hc

/-- Claim C5: comparing two lists is lexicographic — the method
delegates to the pairwise loop, the first non-equal pair decides, an
equal pair defers to the rest, and a proper prefix compares `Less`
(symmetrically `Greater`); comparing a list with any non-list falls
back to the total kind-based tiebreak, so `compare` never fails. -/
theorem claim_C5 :
    (∀ (f1 : Bool) (c1 : List Value) (f2 : Bool) (c2 : List Value),
        Value.compare (.list f1 c1) (.list f2 c2) = compareLists c1 c2)
    ∧ (∀ (a b : Value) (s t : List Value), Value.compare a b ≠ .eq →
        compareLists (a :: s) (b :: t) = Value.compare a b)
    ∧ (∀ (a b : Value) (s t : List Value), Value.compare a b = .eq →
        compareLists (a :: s) (b :: t) = compareLists s t)
    ∧ (∀ (pre suf : List Value), suf ≠ [] →
        compareLists pre (pre ++ suf) = .lt ∧ compareLists (pre ++ suf) pre = .gt)
    ∧ (∀ (f : Bool) (c : List Value) (other : Value), other.get_type ≠ "list" →
        Value.compare (.list f c) other = default_compare (.list f c) other) := by
  refine ⟨?_, compareLists_first_diff, compareLists_first_eq, ?_, ?_⟩
  · intro f1 c1 f2 c2
    rfl
  · intro pre suf h
    exact ⟨compareLists_self_append pre suf h, compareLists_append_self pre suf h⟩
  · intro f c other h
    cases other with
    | list f2 c2 => exact absurd rfl h
    | none => rfl
    | bool b => rfl
    | int a => rfl
    | str s => rfl
    | func s => rfl
    | tuple c2 => rfl

/-- Witness for C5 at the spec's own examples. -/
theorem claim_C5_witness :
    Value.compare (.list false [Value.int 1, Value.int 2])
        (.list false [Value.int 1, Value.int 2, Value.int 3]) = .lt
    ∧ Value.compare (.list false []) (.list false [Value.int 1]) = .lt
    ∧ Value.compare (.list false [Value.int 1]) (.int 5)
        = default_compare (.list false [Value.int 1]) (.int 5) := by
  refine ⟨?_, ?_, ?_⟩
  · have h1 := claim_C5.1 false [Value.int 1, Value.int 2] false
      [Value.int 1, Value.int 2, Value.int 3]
    have h2 := (claim_C5.2.2.2.1 [Value.int 1, Value.int 2] [Value.int 3]
      (by simp)).1
    simp only [List.append_eq] at h2
    rw [h1]
    simpa using h2
  · have h1 := claim_C5.1 false [] false [Value.int 1]
    have h2 := (claim_C5.2.2.2.1 [] [Value.int 1] (by simp)).1
    rw [h1]
    simpa using h2
  · exact claim_C5.2.2.2.2 false [Value.int 1] (.int 5) (by simp [Value.get_type])

/-- Claim C6: list concatenation succeeds exactly on a list operand,
returning a new unfrozen List with the elements of the left operand
followed by those of the right, and fails with
`IncorrectParameterType` on every other kind; the spec's example
`[1,2,3] + [2,3] = [1,2,3,2,3]` is included. -/
theorem claim_C6 :
    (∀ (f1 : Bool) (c1 : List Value) (f2 : Bool) (c2 : List Value),
        Value.add (.list f1 c1) (.list f2 c2) = .ok (.list false (c1 ++ c2)))
    ∧ (∀ (f : Bool) (c : List Value) (other : Value), other.get_type ≠ "list" →
        Value.add (.list f c) other = .error .IncorrectParameterType)
    ∧ Value.add (.list false [.int 1, .int 2, .int 3]) (.list false [.int 2, .int 3])
        = .ok (.list false [.int 1, .int 2, .int 3, .int 2, .int 3]) := by
  refine ⟨?_, ?_, rfl⟩
  · intro f1 c1 f2 c2
    rfl
  · intro f c other h
    simp [Value.add, h]

/-- Witness for C6: a non-list operand declines. -/
theorem claim_C6_witness :
    Value.add (.list false [Value.int 1]) (.int 2)
      = .error .IncorrectParameterType :=
  claim_C6.2.1 false [Value.int 1] (.int 2) (by simp [Value.get_type])

/-- Claim C7: list repetition succeeds exactly on an int or boolean
operand (a boolean coerces to 0/1), returning a new unfrozen List with
the content repeated; non-positive counts give the empty list, a
non-negative count `n` gives length `n * len`, and every other operand
kind fails with `IncorrectParameterType`. -/
theorem claim_C7 :
    (∀ (f : Bool) (c : List Value) (n : Int),
        Value.mul (.list f c) (.int n)
          = .ok (.list false (List.flatten (List.replicate n.toNat c))))
    ∧ (∀ (f : Bool) (c : List Value) (b : Bool),
        Value.mul (.list f c) (.bool b) = .ok (.list false (if b then c else [])))
    ∧ (∀ (f : Bool) (c : List Value) (n : Int), n ≤ 0 →
        Value.mul (.list f c) (.int n) = .ok (.list false []))
    ∧ (∀ (f : Bool) (c : List Value) (n : Int), 0 ≤ n →
        ∃ c2, Value.mul (.list f c) (.int n) = .ok (.list false c2)
          ∧ (c2.length : Int) = n * (c.length : Int))
    ∧ (∀ (f : Bool) (c : List Value) (other : Value),
        other.get_type ≠ "int" → other.get_type ≠ "boolean" →
        Value.mul (.list f c) other = .error .IncorrectParameterType) := by
  refine ⟨?_, ?_, ?_, ?_, ?_⟩
  · intro f c n
    rfl
  · intro f c b
    cases b <;> simp [Value.mul, Value.get_type, Value.to_int]
  · intro f c n h
    have : n.toNat = 0 := Int.toNat_of_nonpos h
    simp [Value.mul, Value.get_type, Value.to_int, this]
  · intro f c n h
    refine ⟨List.flatten (List.replicate n.toNat c), rfl, ?_⟩
    simp [List.length_flatten, List.map_replicate, List.sum_replicate,
      smul_eq_mul, Int.toNat_of_nonneg h]
  · intro f c other h1 h2
    simp [Value.mul, h1, h2]

/-- Witness for C7: repetition by a negative count, a positive count
with its length law, and a non-numeric operand. -/
theorem claim_C7_witness :
    Value.mul (.list false [Value.int 1]) (.int (-2)) = .ok (.list false [])
    ∧ (∃ c2, Value.mul (.list false [Value.int 1, Value.int 2]) (.int 3)
        = .ok (.list false c2) ∧ (c2.length : Int) = 3 * 2)
    ∧ Value.mul (.list false [Value.int 1]) (.str "x")
        = .error .IncorrectParameterType := by
  refine ⟨claim_C7.2.2.1 false [Value.int 1] (-2) (by norm_num), ?_, ?_⟩
  · simpa using claim_C7.2.2.2.1 false [Value.int 1, Value.int 2] 3 (by norm_num)
  · exact claim_C7.2.2.2.2 false [Value.int 1] (.str "x")
      (by simp [Value.get_type]) (by simp [Value.get_type])

/-- Claim C8: a list's hash is the in-order fold of its elements'
hashes into the hasher (so the element order matters: two two-element
lists whose element hash words differ hash differently when swapped),
and the first element whose hash fails aborts the whole hash with that
same error rather than substituting a default. -/
theorem claim_C8 :
    (∀ (f : Bool) (c : List Value), Value.get_hash (.list f c) = hashContents c 0)
    ∧ (∀ (f : Bool) (pre post : List Value) (v : Value) (e : ValueError),
        Value.get_hash v = .error e →
        (∀ u ∈ pre, ∃ h, Value.get_hash u = .ok h) →
        Value.get_hash (.list f (pre ++ v :: post)) = .error e)
    ∧ (∀ (f : Bool) (a b : Value) (ha hb : Nat),
        Value.get_hash a = .ok ha → Value.get_hash b = .ok hb →
        ha % 2 ^ 64 ≠ hb % 2 ^ 64 →
        Value.get_hash (.list f [a, b]) ≠ Value.get_hash (.list f [b, a])) := by
  refine ⟨fun f c => rfl, ?_, ?_⟩
  · intro f pre post v e hv hok
    simpa using hashContents_append_error v e hv pre post 0 hok
  · intro f a b ha hb hha hhb hne h
    rw [show Value.get_hash (.list f [a, b]) = hashContents [a, b] 0 from rfl,
      show Value.get_hash (.list f [b, a]) = hashContents [b, a] 0 from rfl,
      hashContents_ok_cons a [b] 0 ha hha,
      hashContents_ok_cons b [a] 0 hb hhb,
      hashContents_ok_cons b [] (hwrite 0 ha) hb hhb,
      hashContents_ok_cons a [] (hwrite 0 hb) ha hha] at h
    simp only [hashContents, hwrite, Except.ok.injEq] at h
    omega

/-- Witness for C8: an unhashable element aborts the hash, and
swapping two integer elements changes the hash. -/
theorem claim_C8_witness :
    Value.get_hash (.list false [Value.func "f", Value.int 1])
      = .error .NotHashableValue
    ∧ Value.get_hash (.list false [Value.int 1, Value.int 2])
      ≠ Value.get_hash (.list false [Value.int 2, Value.int 1]) := by
  constructor
  · exact claim_C8.2.1 false [] [Value.int 1] (Value.func "f") .NotHashableValue rfl
      (fun u hu => absurd hu (by simp))
  · exact claim_C8.2.2 false (Value.int 1) (Value.int 2) 1 2 rfl rfl (by norm_num)

/-- Claim C9: the List methods are total over the handle: `at` and
`set_at` never reach their out-of-bounds indexing panic (a successful
index conversion is always in range), and the `compare` body never
reaches the `unwrap()` panic on `into_iter`, because an operand whose
type name is "list" always iterates. -/
theorem claim_C9 :
    (∀ (f : Bool) (c : List Value) (idx : Value) (m : String),
        Value.atIndex (.list f c) idx ≠ .error (.Panic m))
    ∧ (∀ (f : Bool) (c : List Value) (idx nv : Value) (m : String),
        Value.set_at (.list f c) idx nv ≠ .error (.Panic m))
    ∧ (∀ (c : List Value) (other : Value), compareMethod c other ≠ Option.none) := by
  refine ⟨?_, ?_, ?_⟩
  · intro f c idx m h
    simp only [Value.atIndex] at h
    cases hcv : Value.convert_index idx ((c.length : Int)) with
    | error e =>
      rw [hcv] at h
      rcases convert_index_error_shape hcv with he | ⟨i, he⟩ <;> subst he <;>
        simp_all
    | ok j =>
      rw [hcv] at h
      dsimp only at h
      have hb := convert_index_ok_bounds hcv
      have hlt : j.toNat < c.length := by omega
      rw [dif_pos hlt] at h
      cases h
  · intro f c idx nv m h
    simp only [Value.set_at] at h
    by_cases hf : f
    · rw [if_pos hf] at h
      cases h
    · rw [if_neg hf] at h
      cases hcv : Value.convert_index idx ((c.length : Int)) with
      | error e =>
        rw [hcv] at h
        rcases convert_index_error_shape hcv with he | ⟨i, he⟩ <;> subst he <;>
          simp_all
      | ok j =>
        rw [hcv] at h
        dsimp only at h
        have hb := convert_index_ok_bounds hcv
        have hlt : j.toNat < c.length := by omega
        rw [if_pos hlt] at h
        cases h
  · intro c other h
    cases other <;> simp [compareMethod, Value.get_type, Value.into_iter] at h

/-- Witness for C9 at concrete inputs. -/
theorem claim_C9_witness :
    Value.atIndex (.list false [Value.int 1]) (.int 5) ≠ .error (.Panic "m")
    ∧ Value.set_at (.list false [Value.int 1]) (.int 5) (.int 0)
        ≠ .error (.Panic "m")
    ∧ compareMethod [Value.int 1] (.list true []) ≠ Option.none :=
  ⟨claim_C9.1 false [Value.int 1] (.int 5) "m",
   claim_C9.2.1 false [Value.int 1] (.int 5) (.int 0) "m",
   claim_C9.2.2 [Value.int 1] (.list true [])⟩

/-- Claim C10: a list is truthy exactly when it is non-empty, and
truthiness is a total boolean observation that ignores the frozen
flag. -/
theorem claim_C10 :
    ∀ (f : Bool) (c : List Value),
      (Value.to_bool (.list f c) = true ↔ c ≠ [])
      ∧ Value.to_bool (.list f c) = Value.to_bool (.list (!f) c) := by
  intro f c
  constructor
  · simp [Value.to_bool]
  · rfl

/-- Witness for C10: a one-element list is truthy, the empty list is
not. -/
theorem claim_C10_witness :
    Value.to_bool (.list false [Value.int 1]) = true :=
  (claim_C10 false [Value.int 1]).1.mpr (by simp)

end Starlark
